import Mathlib

/-!
Shallow embedding of the matrix subsystem of `lgbm-rs` (`src/lgbm/src/mat.rs`):
a flat buffer with shape `(nrow, ncol)` and a row-major / column-major layout
tag, with bounds-checked 2D indexing, row/column slices, sub-range views and
element-wise mapping.  Rust panics (`assert!`, slice-index panics) are modelled
as `Option`/`Except` failures; `usize` is modelled as `Nat`; `Vec<T>`/`&[T]`
as `List α`.
-/

namespace Lgbm

/-- Runtime layout discriminant (`enum MatLayouts`, mat.rs lines 23-28). -/
inductive MatLayouts where
  | RowMajor : MatLayouts
  | ColMajor : MatLayouts
deriving DecidableEq, Repr

/-- The default discriminant of `MatLayouts`: the derive attribute on the
enum marks `ColMajor` as the value of `Default::default()` (mat.rs
lines 23-28). -/
def MatLayouts.defaultValue : MatLayouts := MatLayouts.ColMajor

/-- `RowMajor::layout()` of the type-level tag `RowMajor` (mat.rs lines 36-43). -/
def RowMajor.layout : MatLayouts := MatLayouts.RowMajor

/-- `ColMajor::layout()` of the type-level tag `ColMajor` (mat.rs lines 45-52). -/
def ColMajor.layout : MatLayouts := MatLayouts.ColMajor

/-- The default layout type parameter `L = ColMajor` of
`struct MatBuf<T, L = ColMajor>` (mat.rs line 56), read back through
`ColMajor::layout()`. -/
def MatBufDefaultLayout : MatLayouts := ColMajor.layout

/-- `MatLayout::to_index` (mat.rs lines 14-21): maps a logical
`(row, col)` pair to a physical offset in the flat buffer. -/
def MatLayouts.to_index (l : MatLayouts) (row col nrow ncol : Nat) : Nat :=
  match l with
  | MatLayouts.RowMajor => row * ncol + col
  | MatLayouts.ColMajor => col * nrow + row

/-- `Error::from_message` payload (`Error` in the crate); only the message
matters for the matrix code. -/
inductive Error where
  | from_message (msg : String) : Error
deriving DecidableEq, Repr

/-- Rust double slicing `&v[start..][..len]`: panics (here `none`) when
`start > v.len()` or `len > v.len() - start`, i.e. exactly when
`start + len > v.len()`. -/
def sliceAt (xs : List α) (start len : Nat) : Option (List α) :=
  if start + len ≤ xs.length then some ((xs.drop start).take len) else none

/-- Owning matrix buffer `MatBuf<T, L>` (mat.rs lines 55-61); the layout
type parameter is represented by its runtime `MatLayouts` value. -/
structure MatBuf (α : Type) where
  values : List α
  nrow : Nat
  ncol : Nat
  layout : MatLayouts
deriving DecidableEq, Repr

/-- Borrowed matrix view `Mat<'a, T, L>` (mat.rs lines 245-251); the borrowed
slice is represented by the list of its elements. -/
structure Mat (α : Type) where
  values : List α
  nrow : Nat
  ncol : Nat
  layout : MatLayouts
deriving DecidableEq, Repr

/-- `MatBuf::new` (mat.rs lines 64-77): buffer of `nrow * ncol` copies of the
element default `d`, with the default layout of the layout parameter. -/
def MatBuf.new (d : α) (nrow ncol : Nat) (layout : MatLayouts) : MatBuf α :=
  { values := List.replicate (nrow * ncol) d
    nrow := nrow
    ncol := ncol
    layout := layout }

/-- `MatBuf::from_vec` (mat.rs lines 78-93): panics (`none`) when
`values.len() != nrow * ncol`, otherwise wraps the buffer unchanged. -/
def MatBuf.from_vec (values : List α) (nrow ncol : Nat) (layout : MatLayouts) :
    Option (MatBuf α) :=
  if values.length ≠ nrow * ncol then none
  else some { values := values, nrow := nrow, ncol := ncol, layout := layout }

/-- Loop body of `MatBuf::from_rows` (mat.rs lines 96-109): extend `values`
with each row and count the rows. -/
def from_rows_loop (rows : List (List α)) (values : List α) (nrow : Nat) :
    List α × Nat :=
  match rows with
  | [] => (values, nrow)
  | row :: rest => from_rows_loop rest (values ++ row) (nrow + 1)

/-- `MatBuf::<T, RowMajor>::from_rows::<N>` (mat.rs lines 96-109): concatenate
fixed-width rows into a row-major buffer; `N` is the const width. -/
def MatBuf.from_rows (N : Nat) (rows : List (List α)) : MatBuf α :=
  let r := from_rows_loop rows [] 0
  { values := r.1, nrow := r.2, ncol := N, layout := MatLayouts.RowMajor }

/-- Loop body of `MatBuf::from_rows_non_empty` (mat.rs lines 116-132):
state is `(nrow, ncolumn, values)`; a row whose length differs from the
remembered first width yields `Error::from_message("mismatch column length")`. -/
def from_rows_non_empty_loop (rows : List (List α)) (nrow : Nat)
    (ncolumn : Option Nat) (values : List α) :
    Except Error (Nat × Option Nat × List α) :=
  match rows with
  | [] => Except.ok (nrow, ncolumn, values)
  | row :: rest =>
    match ncolumn with
    | some nc =>
      if nc ≠ row.length then
        Except.error (Error.from_message "mismatch column length")
      else
        from_rows_non_empty_loop rest (nrow + 1) (some nc) (values ++ row)
    | none =>
      from_rows_non_empty_loop rest (nrow + 1) (some row.length) (values ++ row)

/-- `MatBuf::<T, RowMajor>::from_rows_non_empty` (mat.rs lines 110-143):
`Ok(None)` on empty input, `Err` on a column-count mismatch, otherwise a
present row-major matrix. -/
def MatBuf.from_rows_non_empty (rows : List (List α)) :
    Except Error (Option (MatBuf α)) :=
  match from_rows_non_empty_loop rows 0 none [] with
  | Except.error e => Except.error e
  | Except.ok (nrow, ncolumn, values) =>
    match ncolumn with
    | some nc =>
      Except.ok (some { values := values, nrow := nrow, ncol := nc,
                        layout := MatLayouts.RowMajor })
    | none => Except.ok none

/-- `MatBuf::<T, ColMajor>::col` (mat.rs lines 146-150):
`assert_col(col, ncol)` then `&values[col * nrow..][..nrow]`. -/
def MatBuf.col (m : MatBuf α) (col : Nat) : Option (List α) :=
  if col < m.ncol then sliceAt m.values (col * m.nrow) m.nrow else none

/-- `MatBuf::<T, RowMajor>::row` (mat.rs lines 160-165):
`assert_row(row, nrow)` then `&values[row * ncol..][..ncol]`. -/
def MatBuf.row (m : MatBuf α) (row : Nat) : Option (List α) :=
  if row < m.nrow then sliceAt m.values (row * m.ncol) m.ncol else none

/-- `MatBuf::map` (mat.rs lines 198-205): map `f` over the buffer, keeping
shape and layout. -/
def MatBuf.map (m : MatBuf α) (f : α → β) : MatBuf β :=
  { values := m.values.map f
    nrow := m.nrow
    ncol := m.ncol
    layout := m.layout }

/-- `Index<[usize; 2]> for MatBuf` (mat.rs lines 210-218): assert both
indices in range, then read `values[layout.to_index(row, col, nrow, ncol)]`
(the inner read is itself bounds-checked by Rust). -/
def MatBuf.index (m : MatBuf α) (row col : Nat) : Option α :=
  if row < m.nrow then
    if col < m.ncol then
      m.values[m.layout.to_index row col m.nrow m.ncol]?
    else none
  else none

/-- `IndexMut<[usize; 2]> for MatBuf` (mat.rs lines 219-226), observed as a
write through the returned `&mut`: assert both indices, then set
`values[layout.to_index(row, col, nrow, ncol)]` (bounds-checked). -/
def MatBuf.index_mut (m : MatBuf α) (row col : Nat) (x : α) :
    Option (MatBuf α) :=
  if row < m.nrow then
    if col < m.ncol then
      if m.layout.to_index row col m.nrow m.ncol < m.values.length then
        some { m with
               values := m.values.set (m.layout.to_index row col m.nrow m.ncol) x }
      else none
    else none
  else none

/-- `AsMat::as_mat for MatBuf` (mat.rs lines 233-243): borrow the buffer as
a view with the same shape and layout. -/
def MatBuf.as_mat (m : MatBuf α) : Mat α :=
  { values := m.values, nrow := m.nrow, ncol := m.ncol, layout := m.layout }

/-- `Mat::from_slice` (mat.rs lines 259-274): panics (`none`) when
`values.len() != nrow * ncol`, otherwise wraps the slice unchanged. -/
def Mat.from_slice (values : List α) (nrow ncol : Nat) (layout : MatLayouts) :
    Option (Mat α) :=
  if values.length ≠ nrow * ncol then none
  else some { values := values, nrow := nrow, ncol := ncol, layout := layout }

/-- `Mat::<T, ColMajor>::col` (mat.rs lines 302-307), as written in the
source: `assert_col(col, ncol)` then `&values[col * nrow..][..ncol]` — note
the final extent is `ncol`, not `nrow`. -/
def Mat.col (m : Mat α) (col : Nat) : Option (List α) :=
  if col < m.ncol then sliceAt m.values (col * m.nrow) m.ncol else none

/-- `Mat::<T, RowMajor>::row` (mat.rs lines 321-326):
`assert_row(row, nrow)` then `&values[row * ncol..][..ncol]`. -/
def Mat.row (m : Mat α) (row : Nat) : Option (List α) :=
  if row < m.nrow then sliceAt m.values (row * m.ncol) m.ncol else none

/-- `Index<[usize; 2]> for Mat` (mat.rs lines 347-355): same checks and
offset computation as the owning buffer's indexer. -/
def Mat.index (m : Mat α) (row col : Nat) : Option α :=
  if row < m.nrow then
    if col < m.ncol then
      m.values[m.layout.to_index row col m.nrow m.ncol]?
    else none
  else none

/-- One end of a `RangeBounds<usize>` (`std::ops::Bound`). -/
inductive RangeBound where
  | included (n : Nat) : RangeBound
  | excluded (n : Nat) : RangeBound
  | unbounded : RangeBound
deriving DecidableEq, Repr

/-- `to_range` (mat.rs lines 381-393): normalize a pair of bounds into a
half-open `start..end` against the extent `len`. -/
def to_range (startBound endBound : RangeBound) (len : Nat) : Nat × Nat :=
  let start :=
    match startBound with
    | RangeBound.included s => s
    | RangeBound.excluded s => s + 1
    | RangeBound.unbounded => 0
  let stop :=
    match endBound with
    | RangeBound.included e => e + 1
    | RangeBound.excluded e => e
    | RangeBound.unbounded => len
  (start, stop)

/-- `assert_range` (mat.rs lines 413-426): `start <= end` and `end <= len`. -/
def range_ok (range : Nat × Nat) (len : Nat) : Bool :=
  range.1 ≤ range.2 && range.2 ≤ len

/-- `Mat::<T, RowMajor>::rows` (mat.rs lines 328-338): normalize the range,
assert it, then reslice `&values[start * ncol..][..nrow' * ncol]` with
`nrow' = end - start`; `ncol` and `layout` are kept by `..*self`. -/
def Mat.rows (m : Mat α) (startBound endBound : RangeBound) : Option (Mat α) :=
  let range := to_range startBound endBound m.nrow
  if range_ok range m.nrow then
    match sliceAt m.values (range.1 * m.ncol) ((range.2 - range.1) * m.ncol) with
    | some vs =>
      some { values := vs, nrow := range.2 - range.1, ncol := m.ncol,
             layout := m.layout }
    | none => none
  else none

/-- `Mat::<T, ColMajor>::cols` (mat.rs lines 309-319): normalize the range,
assert it, then reslice `&values[start * nrow..][..ncol' * nrow]` with
`ncol' = end - start`; `nrow` and `layout` are kept by `..*self`. -/
def Mat.cols (m : Mat α) (startBound endBound : RangeBound) : Option (Mat α) :=
  let range := to_range startBound endBound m.ncol
  if range_ok range m.ncol then
    match sliceAt m.values (range.1 * m.nrow) ((range.2 - range.1) * m.nrow) with
    | some vs =>
      some { values := vs, nrow := m.nrow, ncol := range.2 - range.1,
             layout := m.layout }
    | none => none
  else none

/-- `MatBuf::<T, RowMajor>::rows` (mat.rs lines 171-174): delegate to the
borrowed view. -/
def MatBuf.rows (m : MatBuf α) (startBound endBound : RangeBound) :
    Option (Mat α) :=
  m.as_mat.rows startBound endBound

/-- `MatBuf::<T, ColMajor>::cols` (mat.rs lines 156-158): delegate to the
borrowed view. -/
def MatBuf.cols (m : MatBuf α) (startBound endBound : RangeBound) :
    Option (Mat α) :=
  m.as_mat.cols startBound endBound

/-! ### Helper lemmas -/

theorem sliceAt_eq_some (xs : List α) (a n : Nat) (h : a + n ≤ xs.length) :
    sliceAt xs a n = some ((xs.drop a).take n) := by
  simp [sliceAt, h]

theorem sliceAt_length (xs ys : List α) (a n : Nat)
    (h : sliceAt xs a n = some ys) : ys.length = n := by
  unfold sliceAt at h
  split at h
  · cases h
    simp only [List.length_take, List.length_drop]
    omega
  · cases h

theorem to_index_lt (l : MatLayouts) (row col nrow ncol : Nat)
    (hr : row < nrow) (hc : col < ncol) :
    l.to_index row col nrow ncol < nrow * ncol := by
  cases l with
  | RowMajor =>
    simp only [MatLayouts.to_index]
    have h1 : (row + 1) * ncol ≤ nrow * ncol := Nat.mul_le_mul_right ncol hr
    rw [Nat.add_mul] at h1
    omega
  | ColMajor =>
    simp only [MatLayouts.to_index]
    have h2 : (col + 1) * nrow ≤ ncol * nrow := Nat.mul_le_mul_right nrow hc
    rw [Nat.add_mul, Nat.mul_comm ncol nrow] at h2
    omega

/-! ### Claim theorems -/

/-- C10: the runtime layout enum's default discriminant is `ColMajor`, the
`MatBuf` layout type parameter defaults to `ColMajor`, and `new(rows, cols)`
with that default produces a matrix whose `layout()` reports `ColMajor`. -/
theorem default_layout_spec (α : Type) (d : α) (nrow ncol : Nat) :
    MatLayouts.defaultValue = MatLayouts.ColMajor ∧
    MatBufDefaultLayout = MatLayouts.ColMajor ∧
    (MatBuf.new d nrow ncol MatBufDefaultLayout).layout = MatLayouts.ColMajor :=
  ⟨rfl, rfl, rfl⟩

/-- Witness for C10 at the concrete shape `2 × 3` over `Int`. -/
theorem default_layout_spec_witness :
    MatLayouts.defaultValue = MatLayouts.ColMajor ∧
    MatBufDefaultLayout = MatLayouts.ColMajor ∧
    (MatBuf.new (0 : Int) 2 3 MatBufDefaultLayout).layout = MatLayouts.ColMajor :=
  default_layout_spec Int 0 2 3

/-- C4: `MatBuf::from_vec` and `Mat::from_slice` fail exactly when the
buffer length differs from `nrow * ncol`; on success they wrap the buffer
unchanged with the given shape and layout. -/
theorem from_vec_from_slice_spec (α : Type) (values : List α)
    (nrow ncol : Nat) (layout : MatLayouts) :
    (MatBuf.from_vec values nrow ncol layout = none ↔
       values.length ≠ nrow * ncol) ∧
    (Mat.from_slice values nrow ncol layout = none ↔
       values.length ≠ nrow * ncol) ∧
    (values.length = nrow * ncol →
       MatBuf.from_vec values nrow ncol layout =
         some { values := values, nrow := nrow, ncol := ncol, layout := layout } ∧
       Mat.from_slice values nrow ncol layout =
         some { values := values, nrow := nrow, ncol := ncol, layout := layout }) := by
  refine ⟨?_, ?_, ?_⟩
  · unfold MatBuf.from_vec
    split <;> simp_all
  · unfold Mat.from_slice
    split <;> simp_all
  · intro h
    constructor <;> simp [MatBuf.from_vec, Mat.from_slice, h]

/-- Witness for C4: a six-element buffer fits shape `2 × 3` and not `2 × 2`. -/
theorem from_vec_from_slice_spec_witness :
    (MatBuf.from_vec [(1 : Int), 2, 3, 4, 5, 6] 2 3 MatLayouts.RowMajor =
       some { values := [1, 2, 3, 4, 5, 6], nrow := 2, ncol := 3,
              layout := MatLayouts.RowMajor } ∧
     Mat.from_slice [(1 : Int), 2, 3, 4, 5, 6] 2 3 MatLayouts.RowMajor =
       some { values := [1, 2, 3, 4, 5, 6], nrow := 2, ncol := 3,
              layout := MatLayouts.RowMajor }) ∧
    (MatBuf.from_vec [(1 : Int), 2, 3, 4, 5, 6] 2 2 MatLayouts.RowMajor = none ↔
       ([(1 : Int), 2, 3, 4, 5, 6].length ≠ 2 * 2)) :=
  ⟨(from_vec_from_slice_spec Int [1, 2, 3, 4, 5, 6] 2 3 MatLayouts.RowMajor).2.2
     (by decide),
   (from_vec_from_slice_spec Int [1, 2, 3, 4, 5, 6] 2 2 MatLayouts.RowMajor).1⟩

/-- C1 (code bug evaluation): on the column-major view of the `3 × 2`
matrix `[[1,2],[3,4],[5,6]]` with flat buffer `[1,2,3,4,5,6]`, the owning
buffer's `col(0)` returns the full column `[1,2,3]` of length `nrow = 3`,
but the borrowed view's `col(0)` returns only `[1,2]` of length
`ncol = 2`, because `Mat::col` slices `..self.ncol` instead of
`..self.nrow`; on a `1 × 3` column-major view, `col(2)` even aborts on an
out-of-range slice instead of returning the singleton column. -/
theorem mat_col_bug_eval :
    MatBuf.col { values := [(1 : Int), 2, 3, 4, 5, 6], nrow := 3, ncol := 2,
                 layout := MatLayouts.ColMajor } 0 = some [1, 2, 3] ∧
    Mat.col { values := [(1 : Int), 2, 3, 4, 5, 6], nrow := 3, ncol := 2,
              layout := MatLayouts.ColMajor } 0 = some [1, 2] ∧
    Mat.col { values := [(1 : Int), 2, 3], nrow := 1, ncol := 3,
              layout := MatLayouts.ColMajor } 2 = none := by
  refine ⟨?_, ?_, ?_⟩ <;> decide

/-- C2: for every in-bounds `(row, col)`, 2D indexing reads the flat-buffer
offset `row*ncol + col` under `RowMajor` and `col*nrow + row` under
`ColMajor`; the mutable indexer writes the same offset, and the borrowed
view's indexer uses the same mapping. -/
theorem index_offset_mapping (α : Type) (m : MatBuf α) (v : Mat α)
    (row col : Nat) (x : α)
    (hr : row < m.nrow) (hc : col < m.ncol)
    (hvr : row < v.nrow) (hvc : col < v.ncol)
    (hm : m.values.length = m.nrow * m.ncol) :
    (m.layout = MatLayouts.RowMajor →
       m.index row col = m.values[row * m.ncol + col]? ∧
       m.index_mut row col x =
         some { m with values := m.values.set (row * m.ncol + col) x }) ∧
    (m.layout = MatLayouts.ColMajor →
       m.index row col = m.values[col * m.nrow + row]? ∧
       m.index_mut row col x =
         some { m with values := m.values.set (col * m.nrow + row) x }) ∧
    (v.layout = MatLayouts.RowMajor →
       v.index row col = v.values[row * v.ncol + col]?) ∧
    (v.layout = MatLayouts.ColMajor →
       v.index row col = v.values[col * v.nrow + row]?) := by
  have hlt := to_index_lt m.layout row col m.nrow m.ncol hr hc
  rw [← hm] at hlt
  refine ⟨fun hl => ?_, fun hl => ?_, fun hl => ?_, fun hl => ?_⟩ <;>
    simp only [MatBuf.index, MatBuf.index_mut, Mat.index, hl,
      MatLayouts.to_index, if_pos hr, if_pos hc, if_pos hvr, if_pos hvc] <;>
    try exact ⟨rfl, rfl⟩
  · rw [hl] at hlt
    simp only [MatLayouts.to_index] at hlt
    simp [if_pos hlt]
  · rw [hl] at hlt
    simp only [MatLayouts.to_index] at hlt
    simp [if_pos hlt]

/-- Witness for C2 on the `2 × 3` row-major buffer `[1,2,3,4,5,6]` and its
column-major sibling, at position `(1, 2)`. -/
theorem index_offset_mapping_witness :
    MatBuf.index { values := [(1 : Int), 2, 3, 4, 5, 6], nrow := 2, ncol := 3,
                   layout := MatLayouts.RowMajor } 1 2 =
      [(1 : Int), 2, 3, 4, 5, 6][1 * 3 + 2]? ∧
    MatBuf.index_mut { values := [(1 : Int), 2, 3, 4, 5, 6], nrow := 2,
                       ncol := 3, layout := MatLayouts.RowMajor } 1 2 (9 : Int) =
      some { values := [(1 : Int), 2, 3, 4, 5, 6].set (1 * 3 + 2) 9, nrow := 2,
             ncol := 3, layout := MatLayouts.RowMajor } := by
  have h :=
    (index_offset_mapping Int
      { values := [(1 : Int), 2, 3, 4, 5, 6], nrow := 2, ncol := 3,
        layout := MatLayouts.RowMajor }
      { values := [(1 : Int), 2, 3, 4, 5, 6], nrow := 2, ncol := 3,
        layout := MatLayouts.RowMajor }
      1 2 (9 : Int) (by decide) (by decide) (by decide) (by decide)
      (by decide)).1 rfl
  exact h

/-- C5: with the length invariant, the bounds-checked accessor fails exactly
when `row ≥ nrow` or `col ≥ ncol`, and for in-bounds indices it reads an
offset strictly inside the flat buffer (no clamping, wrapping, or
out-of-buffer read). -/
theorem at_bounds_spec (α : Type) (m : MatBuf α) (row col : Nat)
    (hinv : m.values.length = m.nrow * m.ncol) :
    (m.index row col = none ↔ m.nrow ≤ row ∨ m.ncol ≤ col) ∧
    (row < m.nrow → col < m.ncol →
       m.layout.to_index row col m.nrow m.ncol < m.values.length ∧
       m.index row col =
         m.values[m.layout.to_index row col m.nrow m.ncol]?) := by
  constructor
  · by_cases h1 : row < m.nrow
    · by_cases h2 : col < m.ncol
      · have hlt := to_index_lt m.layout row col m.nrow m.ncol h1 h2
        rw [← hinv] at hlt
        simp [MatBuf.index, h1, h2, List.getElem?_eq_none_iff]
        omega
      · simp [MatBuf.index, h1, h2]
        omega
    · simp [MatBuf.index, h1]
      omega
  · intro h1 h2
    have hlt := to_index_lt m.layout row col m.nrow m.ncol h1 h2
    rw [← hinv] at hlt
    exact ⟨hlt, by simp [MatBuf.index, h1, h2]⟩

/-- Witness for C5: on a `3 × 2` buffer, `at(5, 0)` fails and `at(1, 1)`
reads inside the buffer. -/
theorem at_bounds_spec_witness :
    (MatBuf.index { values := [(1 : Int), 2, 3, 4, 5, 6], nrow := 3, ncol := 2,
                    layout := MatLayouts.ColMajor } 5 0 = none ↔
       3 ≤ 5 ∨ 2 ≤ 0) ∧
    (MatLayouts.ColMajor.to_index 1 1 3 2 < 6 ∧
     MatBuf.index { values := [(1 : Int), 2, 3, 4, 5, 6], nrow := 3, ncol := 2,
                    layout := MatLayouts.ColMajor } 1 1 =
       [(1 : Int), 2, 3, 4, 5, 6][MatLayouts.ColMajor.to_index 1 1 3 2]?) :=
  ⟨(at_bounds_spec Int
      { values := [(1 : Int), 2, 3, 4, 5, 6], nrow := 3, ncol := 2,
        layout := MatLayouts.ColMajor } 5 0 (by decide)).1,
   (at_bounds_spec Int
      { values := [(1 : Int), 2, 3, 4, 5, 6], nrow := 3, ncol := 2,
        layout := MatLayouts.ColMajor } 1 1 (by decide)).2
     (by decide) (by decide)⟩

theorem from_rows_loop_eq (rows : List (List α)) (values : List α) (nrow : Nat) :
    from_rows_loop rows values nrow = (values ++ rows.flatten, nrow + rows.length) := by
  induction rows generalizing values nrow with
  | nil => simp [from_rows_loop]
  | cons r rest ih =>
    simp only [from_rows_loop]
    rw [ih]
    simp [List.append_assoc, List.flatten_cons, Prod.ext_iff]
    omega

theorem fr_loop_ok (rows : List (List α)) (nc : Nat)
    (h : ∀ r ∈ rows, r.length = nc) (nrow : Nat) (values : List α) :
    from_rows_non_empty_loop rows nrow (some nc) values =
      Except.ok (nrow + rows.length, some nc, values ++ rows.flatten) := by
  induction rows generalizing nrow values with
  | nil => simp [from_rows_non_empty_loop]
  | cons r rest ih =>
    have hr : r.length = nc := h r (List.mem_cons_self r rest)
    have hrest : ∀ x ∈ rest, x.length = nc :=
      fun x hx => h x (List.mem_cons_of_mem r hx)
    simp only [from_rows_non_empty_loop]
    rw [if_neg (by omega)]
    rw [ih hrest]
    have harith : nrow + 1 + rest.length = nrow + (rest.length + 1) := by omega
    rw [harith, List.flatten_cons, ← List.append_assoc]
    simp

theorem fr_loop_err (rows : List (List α)) (nc : Nat)
    (h : ∃ r ∈ rows, r.length ≠ nc) (nrow : Nat) (values : List α) :
    from_rows_non_empty_loop rows nrow (some nc) values =
      Except.error (Error.from_message "mismatch column length") := by
  induction rows generalizing nrow values with
  | nil => simp at h
  | cons r rest ih =>
    by_cases hr : r.length = nc
    · simp only [from_rows_non_empty_loop]
      rw [if_neg (by omega)]
      apply ih
      obtain ⟨x, hx, hxl⟩ := h
      rcases List.mem_cons.mp hx with h1 | h1
      · subst h1
        exact absurd hr hxl
      · exact ⟨x, h1, hxl⟩
    · simp only [from_rows_non_empty_loop]
      rw [if_pos (by omega)]

theorem flatten_length_const (rows : List (List α)) (N : Nat)
    (h : ∀ r ∈ rows, r.length = N) : rows.flatten.length = rows.length * N := by
  induction rows with
  | nil => simp
  | cons r rest ih =>
    have hr : r.length = N := h r (List.mem_cons_self r rest)
    have hrest : ∀ x ∈ rest, x.length = N :=
      fun x hx => h x (List.mem_cons_of_mem r hx)
    simp [List.flatten_cons, ih hrest, hr, Nat.succ_mul]
    omega

theorem sliceAt_shift (r xs : List α) (a n : Nat) :
    sliceAt (r ++ xs) (r.length + a) n = sliceAt xs a n := by
  unfold sliceAt
  rw [List.length_append, List.drop_append]
  by_cases h : a + n ≤ xs.length
  · rw [if_pos (by omega), if_pos h]
  · rw [if_neg (by omega), if_neg h]

theorem sliceAt_first (r xs : List α) :
    sliceAt (r ++ xs) 0 r.length = some r := by
  unfold sliceAt
  rw [if_pos (by simp)]
  simp [List.take_left]

theorem sliceAt_flatten (rows : List (List α)) (N : Nat)
    (h : ∀ r ∈ rows, r.length = N) (i : Nat) (hi : i < rows.length) :
    sliceAt rows.flatten (i * N) N = some (rows.get ⟨i, hi⟩) := by
  induction rows generalizing i with
  | nil => simp at hi
  | cons r rest ih =>
    have hr : r.length = N := h r (List.mem_cons_self r rest)
    have hrest : ∀ x ∈ rest, x.length = N :=
      fun x hx => h x (List.mem_cons_of_mem r hx)
    cases i with
    | zero =>
      simp only [List.flatten_cons, Nat.zero_mul, List.get]
      rw [← hr]
      exact sliceAt_first r rest.flatten
    | succ j =>
      have hj : j < rest.length := by
        simp only [List.length_cons] at hi
        omega
      have hstep : (j + 1) * N = r.length + j * N := by
        rw [hr]
        ring
      rw [List.flatten_cons, hstep, sliceAt_shift]
      simpa using ih hrest j hj

/-- C9: `map(f)` keeps shape and layout, maps every in-bounds element
through `f`, composes (`map g` after `map f` equals mapping the
composite), and in particular doubling twice equals scaling by four. -/
theorem map_spec (α β γ : Type) (m : MatBuf α) (f : α → β) (g : β → γ)
    (row col : Nat) (hr : row < m.nrow) (hc : col < m.ncol) :
    (m.map f).nrow = m.nrow ∧ (m.map f).ncol = m.ncol ∧
    (m.map f).layout = m.layout ∧
    (m.map f).index row col = Option.map f (m.index row col) ∧
    (m.map f).map g = m.map (fun x => g (f x)) ∧
    (∀ mi : MatBuf Int,
       (mi.map (fun x => x * 2)).map (fun x => x * 2) =
         mi.map (fun x => x * 4)) := by
  refine ⟨rfl, rfl, rfl, ?_, ?_, ?_⟩
  · simp [MatBuf.index, MatBuf.map, hr, hc, List.getElem?_map]
  · simp [MatBuf.map, List.map_map, Function.comp]
  · intro mi
    simp only [MatBuf.map, List.map_map]
    have hfun : ((fun x : Int => x * 2) ∘ fun x : Int => x * 2) =
        fun x : Int => x * 4 := by
      funext x
      simp only [Function.comp]
      ring
    rw [hfun]

/-- Witness for C9 on the `2 × 2` row-major buffer `[1,2,3,4]` at `(1, 0)`. -/
theorem map_spec_witness :
    (MatBuf.map { values := [(1 : Int), 2, 3, 4], nrow := 2, ncol := 2,
                  layout := MatLayouts.RowMajor } (fun x => x + 10)).index 1 0 =
      Option.map (fun x => x + 10)
        (MatBuf.index { values := [(1 : Int), 2, 3, 4], nrow := 2, ncol := 2,
                        layout := MatLayouts.RowMajor } 1 0) ∧
    (MatBuf.map (MatBuf.map { values := [(1 : Int), 2, 3, 4], nrow := 2,
                              ncol := 2, layout := MatLayouts.RowMajor }
        (fun x => x * 2)) (fun x => x * 2)) =
      MatBuf.map { values := [(1 : Int), 2, 3, 4], nrow := 2, ncol := 2,
                   layout := MatLayouts.RowMajor } (fun x => x * 4) := by
  have h := map_spec Int Int Int
    { values := [(1 : Int), 2, 3, 4], nrow := 2, ncol := 2,
      layout := MatLayouts.RowMajor }
    (fun x => x + 10) (fun x => x + 10) 1 0 (by decide) (by decide)
  exact ⟨h.2.2.2.1, h.2.2.2.2.2
    { values := [(1 : Int), 2, 3, 4], nrow := 2, ncol := 2,
      layout := MatLayouts.RowMajor }⟩

theorem from_rows_non_empty_cons_step (first : List α) (rest : List (List α)) :
    MatBuf.from_rows_non_empty (first :: rest) =
      (match from_rows_non_empty_loop rest 1 (some first.length) first with
       | Except.error e => Except.error e
       | Except.ok (nrow, ncolumn, values) =>
         match ncolumn with
         | some nc =>
           Except.ok (some ({ values := values, nrow := nrow, ncol := nc,
                              layout := MatLayouts.RowMajor } : MatBuf α))
         | none => Except.ok none) := rfl

/-- C3: `from_rows_non_empty` returns `Ok(None)` on the empty sequence, an
error exactly on a column-count mismatch against the first row, and
otherwise a present row-major matrix whose row count is the number of
input rows and whose column count is the first row's length. -/
theorem from_rows_non_empty_spec (α : Type) :
    (MatBuf.from_rows_non_empty ([] : List (List α)) = Except.ok none) ∧
    (∀ (first : List α) (rest : List (List α)),
      ((∃ r ∈ first :: rest, r.length ≠ first.length) →
         MatBuf.from_rows_non_empty (first :: rest) =
           Except.error (Error.from_message "mismatch column length")) ∧
      ((∀ r ∈ first :: rest, r.length = first.length) →
         MatBuf.from_rows_non_empty (first :: rest) =
           Except.ok (some { values := (first :: rest).flatten,
                             nrow := (first :: rest).length,
                             ncol := first.length,
                             layout := MatLayouts.RowMajor }))) := by
  refine ⟨rfl, fun first rest => ⟨fun hmis => ?_, fun hall => ?_⟩⟩
  · have hr : ∃ r ∈ rest, r.length ≠ first.length := by
      obtain ⟨x, hx, hxl⟩ := hmis
      rcases List.mem_cons.mp hx with h1 | h1
      · subst h1
        exact absurd rfl hxl
      · exact ⟨x, h1, hxl⟩
    rw [from_rows_non_empty_cons_step, fr_loop_err rest first.length hr 1 first]
  · have hrest : ∀ r ∈ rest, r.length = first.length :=
      fun r hr => hall r (List.mem_cons_of_mem first hr)
    rw [from_rows_non_empty_cons_step, fr_loop_ok rest first.length hrest 1 first]
    simp [MatBuf.mk.injEq, List.flatten_cons]
    omega

/-- Witness for C3: empty input, the mismatched `[[1,2],[1]]`, and the
well-formed `[[1,2],[3,4]]`. -/
theorem from_rows_non_empty_spec_witness :
    MatBuf.from_rows_non_empty ([] : List (List Int)) = Except.ok none ∧
    MatBuf.from_rows_non_empty [[(1 : Int), 2], [1]] =
      Except.error (Error.from_message "mismatch column length") ∧
    MatBuf.from_rows_non_empty [[(1 : Int), 2], [3, 4]] =
      Except.ok (some { values := [1, 2, 3, 4], nrow := 2, ncol := 2,
                        layout := MatLayouts.RowMajor }) := by
  refine ⟨(from_rows_non_empty_spec Int).1, ?_, ?_⟩
  · exact ((from_rows_non_empty_spec Int).2 [1, 2] [[1]]).1 (by decide)
  · have h := ((from_rows_non_empty_spec Int).2 [1, 2] [[3, 4]]).2 (by decide)
    simpa using h

/-- C7: a row-major matrix built from fixed-width rows has the
concatenation of the rows as its flat buffer, shape
`(number of rows) × width`, and `row(i)` returns exactly the `i`-th input
row. -/
theorem from_rows_roundtrip_spec (α : Type) (N : Nat) (rows : List (List α))
    (h : ∀ r ∈ rows, r.length = N) :
    (MatBuf.from_rows N rows).values = rows.flatten ∧
    (MatBuf.from_rows N rows).nrow = rows.length ∧
    (MatBuf.from_rows N rows).ncol = N ∧
    (MatBuf.from_rows N rows).layout = MatLayouts.RowMajor ∧
    (∀ (i : Nat) (hi : i < rows.length),
       (MatBuf.from_rows N rows).row i = some (rows.get ⟨i, hi⟩)) := by
  have hv : MatBuf.from_rows N rows =
      { values := rows.flatten, nrow := rows.length, ncol := N,
        layout := MatLayouts.RowMajor } := by
    unfold MatBuf.from_rows
    rw [from_rows_loop_eq]
    simp
  refine ⟨by rw [hv], by rw [hv], by rw [hv], by rw [hv], ?_⟩
  intro i hi
  rw [hv]
  unfold MatBuf.row
  rw [if_pos hi]
  exact sliceAt_flatten rows N h i hi

/-- Witness for C7 at the spec's example `[[1,2,3],[4,5,6]]`. -/
theorem from_rows_roundtrip_spec_witness :
    (MatBuf.from_rows 3 [[(1 : Int), 2, 3], [4, 5, 6]]).values =
      [1, 2, 3, 4, 5, 6] ∧
    (MatBuf.from_rows 3 [[(1 : Int), 2, 3], [4, 5, 6]]).row 0 =
      some [1, 2, 3] ∧
    (MatBuf.from_rows 3 [[(1 : Int), 2, 3], [4, 5, 6]]).row 1 =
      some [4, 5, 6] := by
  have h := from_rows_roundtrip_spec Int 3 [[(1 : Int), 2, 3], [4, 5, 6]]
    (by decide)
  refine ⟨by simpa using h.1, ?_, ?_⟩
  · have h0 := h.2.2.2.2 0 (by decide)
    simpa using h0
  · have h1 := h.2.2.2.2 1 (by decide)
    simpa using h1

theorem sliceAt_sliceAt (xs ys : List α) (a n b k : Nat)
    (h : sliceAt xs a n = some ys) (hbk : b + k ≤ n) :
    sliceAt ys b k = sliceAt xs (a + b) k := by
  have hcond : a + n ≤ xs.length := by
    by_contra hc
    simp [sliceAt, hc] at h
  have hys : ys = (xs.drop a).take n := by
    rw [sliceAt_eq_some xs a n hcond] at h
    exact (Option.some.inj h).symm
  subst hys
  have hlen : ((xs.drop a).take n).length = n := by
    simp only [List.length_take, List.length_drop]
    omega
  unfold sliceAt
  rw [if_pos (show b + k ≤ ((xs.drop a).take n).length by rw [hlen]; omega),
      if_pos (show a + b + k ≤ xs.length by omega)]
  congr 1
  rw [List.drop_take, List.drop_drop, List.take_take,
      min_eq_left (by omega : k ≤ n - b)]

theorem rows_some (m : Mat α) (sb eb : RangeBound) (s e : Nat)
    (hinv : m.values.length = m.nrow * m.ncol)
    (hre : to_range sb eb m.nrow = (s, e)) (hse : s ≤ e) (hen : e ≤ m.nrow) :
    Mat.rows m sb eb =
      some { values := (m.values.drop (s * m.ncol)).take ((e - s) * m.ncol),
             nrow := e - s, ncol := m.ncol, layout := m.layout } := by
  have h1 : s * m.ncol + (e - s) * m.ncol ≤ m.values.length := by
    rw [hinv, ← Nat.add_mul, (by omega : s + (e - s) = e)]
    exact Nat.mul_le_mul_right m.ncol hen
  simp only [Mat.rows, hre]
  rw [if_pos (by simp [range_ok, hse, hen]), sliceAt_eq_some m.values _ _ h1]

theorem cols_some (m : Mat α) (sb eb : RangeBound) (s e : Nat)
    (hinv : m.values.length = m.nrow * m.ncol)
    (hre : to_range sb eb m.ncol = (s, e)) (hse : s ≤ e) (hen : e ≤ m.ncol) :
    Mat.cols m sb eb =
      some { values := (m.values.drop (s * m.nrow)).take ((e - s) * m.nrow),
             nrow := m.nrow, ncol := e - s, layout := m.layout } := by
  have h1 : s * m.nrow + (e - s) * m.nrow ≤ m.values.length := by
    rw [hinv, ← Nat.add_mul, (by omega : s + (e - s) = e),
        Nat.mul_comm m.nrow m.ncol]
    exact Nat.mul_le_mul_right m.nrow hen
  simp only [Mat.cols, hre]
  rw [if_pos (by simp [range_ok, hse, hen]), sliceAt_eq_some m.values _ _ h1]

theorem rows_some_length (v w : Mat α) (sb eb : RangeBound)
    (h : Mat.rows v sb eb = some w) :
    w.values.length = w.nrow * w.ncol := by
  simp only [Mat.rows] at h
  split at h
  · split at h
    next vs heq =>
      cases h
      exact sliceAt_length v.values vs _ _ heq
    next heq => cases h
  · cases h

theorem cols_some_length (v w : Mat α) (sb eb : RangeBound)
    (h : Mat.cols v sb eb = some w) :
    w.values.length = w.nrow * w.ncol := by
  simp only [Mat.cols] at h
  split at h
  · split at h
    next vs heq =>
      cases h
      rw [sliceAt_length v.values vs _ _ heq]
      exact Nat.mul_comm _ _
    next heq => cases h
  · cases h

/-- C6: every operation that yields a matrix or a view — `new`,
`from_vec`/`from_slice`, `from_rows`, `from_rows_non_empty`, `map`, and the
`rows`/`cols` sub-range views — produces a result whose flat buffer length
equals `rows * columns`. -/
theorem length_invariant_spec (α β : Type) (d : α) (nrow ncol : Nat)
    (layout : MatLayouts) (f : α → β) :
    ((MatBuf.new d nrow ncol layout).values.length =
       (MatBuf.new d nrow ncol layout).nrow *
         (MatBuf.new d nrow ncol layout).ncol) ∧
    (∀ (vs : List α) (m : MatBuf α),
       MatBuf.from_vec vs nrow ncol layout = some m →
       m.values.length = m.nrow * m.ncol) ∧
    (∀ (vs : List α) (v : Mat α),
       Mat.from_slice vs nrow ncol layout = some v →
       v.values.length = v.nrow * v.ncol) ∧
    (∀ (N : Nat) (rows : List (List α)), (∀ r ∈ rows, r.length = N) →
       (MatBuf.from_rows N rows).values.length =
         (MatBuf.from_rows N rows).nrow * (MatBuf.from_rows N rows).ncol) ∧
    (∀ (rows : List (List α)) (m : MatBuf α),
       MatBuf.from_rows_non_empty rows = Except.ok (some m) →
       m.values.length = m.nrow * m.ncol) ∧
    (∀ m : MatBuf α, m.values.length = m.nrow * m.ncol →
       (m.map f).values.length = (m.map f).nrow * (m.map f).ncol) ∧
    (∀ (v w : Mat α) (sb eb : RangeBound), Mat.rows v sb eb = some w →
       w.values.length = w.nrow * w.ncol) ∧
    (∀ (v w : Mat α) (sb eb : RangeBound), Mat.cols v sb eb = some w →
       w.values.length = w.nrow * w.ncol) := by
  refine ⟨?_, ?_, ?_, ?_, ?_, ?_, ?_, ?_⟩
  · simp [MatBuf.new]
  · intro vs m h
    unfold MatBuf.from_vec at h
    split at h
    · cases h
    · cases h
      simp_all
  · intro vs v h
    unfold Mat.from_slice at h
    split at h
    · cases h
    · cases h
      simp_all
  · intro N rows hw
    unfold MatBuf.from_rows
    rw [from_rows_loop_eq]
    simpa using flatten_length_const rows N hw
  · intro rows m h
    match rows with
    | [] =>
      rw [(rfl : MatBuf.from_rows_non_empty ([] : List (List α)) =
             Except.ok none)] at h
      cases h
    | first :: rest =>
      by_cases hall : ∀ r ∈ rest, r.length = first.length
      · rw [from_rows_non_empty_cons_step,
            fr_loop_ok rest first.length hall 1 first] at h
        cases h
        simp only [List.length_append,
          flatten_length_const rest first.length hall, Nat.add_mul,
          Nat.one_mul]
      · push_neg at hall
        obtain ⟨x, hx, hxl⟩ := hall
        rw [from_rows_non_empty_cons_step,
            fr_loop_err rest first.length ⟨x, hx, hxl⟩ 1 first] at h
        cases h
  · intro m h
    simpa [MatBuf.map] using h
  · exact fun v w sb eb h => rows_some_length v w sb eb h
  · exact fun v w sb eb h => cols_some_length v w sb eb h

/-- Witness for C6 on concrete `Int` matrices of shape `2 × 3`. -/
theorem length_invariant_spec_witness :
    (MatBuf.new (0 : Int) 2 3 MatLayouts.ColMajor).values.length =
      (MatBuf.new (0 : Int) 2 3 MatLayouts.ColMajor).nrow *
        (MatBuf.new (0 : Int) 2 3 MatLayouts.ColMajor).ncol ∧
    ({ values := [(1 : Int), 2, 3, 4, 5, 6], nrow := 2, ncol := 3,
       layout := MatLayouts.ColMajor } : MatBuf Int).values.length =
      ({ values := [(1 : Int), 2, 3, 4, 5, 6], nrow := 2, ncol := 3,
         layout := MatLayouts.ColMajor } : MatBuf Int).nrow *
        ({ values := [(1 : Int), 2, 3, 4, 5, 6], nrow := 2, ncol := 3,
           layout := MatLayouts.ColMajor } : MatBuf Int).ncol ∧
    (MatBuf.from_rows 3 [[(1 : Int), 2, 3], [4, 5, 6]]).values.length =
      (MatBuf.from_rows 3 [[(1 : Int), 2, 3], [4, 5, 6]]).nrow *
        (MatBuf.from_rows 3 [[(1 : Int), 2, 3], [4, 5, 6]]).ncol ∧
    ({ values := [(3 : Int), 4, 5, 6], nrow := 2, ncol := 2,
       layout := MatLayouts.RowMajor } : Mat Int).values.length =
      ({ values := [(3 : Int), 4, 5, 6], nrow := 2, ncol := 2,
         layout := MatLayouts.RowMajor } : Mat Int).nrow *
        ({ values := [(3 : Int), 4, 5, 6], nrow := 2, ncol := 2,
           layout := MatLayouts.RowMajor } : Mat Int).ncol := by
  have h := length_invariant_spec Int Int (0 : Int) 2 3 MatLayouts.ColMajor
    (fun x => x)
  refine ⟨h.1, ?_, ?_, ?_⟩
  · exact h.2.1 [(1 : Int), 2, 3, 4, 5, 6]
      { values := [(1 : Int), 2, 3, 4, 5, 6], nrow := 2, ncol := 3,
        layout := MatLayouts.ColMajor } (by decide)
  · exact h.2.2.2.1 3 [[(1 : Int), 2, 3], [4, 5, 6]] (by decide)
  · exact h.2.2.2.2.2.2.1
      { values := [(1 : Int), 2, 3, 4, 5, 6], nrow := 3, ncol := 2,
        layout := MatLayouts.RowMajor }
      { values := [(3 : Int), 4, 5, 6], nrow := 2, ncol := 2,
        layout := MatLayouts.RowMajor }
      (RangeBound.included 1) (RangeBound.excluded 3) (by decide)

/-- C8: `rows`/`cols` first normalize the bound pair into a half-open
`[start, end)` range, fail exactly when `start > end` or `end` exceeds the
extent along the contiguous axis, and otherwise return a view of
`end - start` rows (resp. columns) whose element `i` is element
`start + i` of the source. -/
theorem range_view_spec (α : Type) (m : Mat α) (sb eb : RangeBound)
    (hinv : m.values.length = m.nrow * m.ncol) :
    (∀ s e len : Nat,
       to_range (RangeBound.included s) (RangeBound.excluded e) len = (s, e)) ∧
    (∀ s e len : Nat,
       to_range (RangeBound.excluded s) (RangeBound.included e) len =
         (s + 1, e + 1)) ∧
    (∀ len : Nat,
       to_range RangeBound.unbounded RangeBound.unbounded len = (0, len)) ∧
    (Mat.rows m sb eb = none ↔
       ¬((to_range sb eb m.nrow).1 ≤ (to_range sb eb m.nrow).2 ∧
         (to_range sb eb m.nrow).2 ≤ m.nrow)) ∧
    (∀ s e : Nat, to_range sb eb m.nrow = (s, e) → s ≤ e → e ≤ m.nrow →
       ∃ v, Mat.rows m sb eb = some v ∧ v.nrow = e - s ∧ v.ncol = m.ncol ∧
         v.layout = m.layout ∧
         (∀ i, i < e - s → v.row i = m.row (s + i))) ∧
    (Mat.cols m sb eb = none ↔
       ¬((to_range sb eb m.ncol).1 ≤ (to_range sb eb m.ncol).2 ∧
         (to_range sb eb m.ncol).2 ≤ m.ncol)) ∧
    (∀ s e : Nat, to_range sb eb m.ncol = (s, e) → s ≤ e → e ≤ m.ncol →
       m.layout = MatLayouts.ColMajor →
       ∃ v, Mat.cols m sb eb = some v ∧ v.nrow = m.nrow ∧ v.ncol = e - s ∧
         v.layout = m.layout ∧
         (∀ r j, r < m.nrow → j < e - s →
            v.index r j = m.index r (s + j))) := by
  refine ⟨fun s e len => rfl, fun s e len => rfl, fun len => rfl,
    ?_, ?_, ?_, ?_⟩
  · constructor
    · intro hnone hcond
      rw [rows_some m sb eb (to_range sb eb m.nrow).1 (to_range sb eb m.nrow).2
          hinv rfl hcond.1 hcond.2] at hnone
      cases hnone
    · intro hcond
      simp only [Mat.rows]
      have hfalse : ¬(range_ok (to_range sb eb m.nrow) m.nrow = true) := by
        simp only [range_ok, Bool.and_eq_true, decide_eq_true_eq]
        exact hcond
      rw [if_neg hfalse]
  · intro s e hre hse hen
    refine ⟨_, rows_some m sb eb s e hinv hre hse hen, rfl, rfl, rfl, ?_⟩
    intro i hi
    have hslice : sliceAt m.values (s * m.ncol) ((e - s) * m.ncol) =
        some ((m.values.drop (s * m.ncol)).take ((e - s) * m.ncol)) := by
      apply sliceAt_eq_some
      rw [hinv, ← Nat.add_mul, (by omega : s + (e - s) = e)]
      exact Nat.mul_le_mul_right m.ncol hen
    have hbk : i * m.ncol + m.ncol ≤ (e - s) * m.ncol := by
      have h1 : (i + 1) * m.ncol ≤ (e - s) * m.ncol :=
        Nat.mul_le_mul_right m.ncol (by omega)
      rw [Nat.add_mul] at h1
      omega
    have hsub := sliceAt_sliceAt m.values
      ((m.values.drop (s * m.ncol)).take ((e - s) * m.ncol))
      (s * m.ncol) ((e - s) * m.ncol) (i * m.ncol) m.ncol hslice hbk
    simp only [Mat.row]
    rw [if_pos (show i < e - s from hi),
        if_pos (show s + i < m.nrow by omega), hsub, ← Nat.add_mul]
  · constructor
    · intro hnone hcond
      rw [cols_some m sb eb (to_range sb eb m.ncol).1 (to_range sb eb m.ncol).2
          hinv rfl hcond.1 hcond.2] at hnone
      cases hnone
    · intro hcond
      simp only [Mat.cols]
      have hfalse : ¬(range_ok (to_range sb eb m.ncol) m.ncol = true) := by
        simp only [range_ok, Bool.and_eq_true, decide_eq_true_eq]
        exact hcond
      rw [if_neg hfalse]
  · intro s e hre hse hen hl
    refine ⟨_, cols_some m sb eb s e hinv hre hse hen, rfl, rfl, rfl, ?_⟩
    intro r j hr hj
    simp only [Mat.index, hl, MatLayouts.to_index]
    rw [if_pos hr, if_pos (show j < e - s from hj), if_pos hr,
        if_pos (show s + j < m.ncol by omega)]
    have hkn : j * m.nrow + r < (e - s) * m.nrow := by
      have h1 : (j + 1) * m.nrow ≤ (e - s) * m.nrow :=
        Nat.mul_le_mul_right m.nrow (by omega)
      rw [Nat.add_mul] at h1
      omega
    rw [List.getElem?_take, if_pos hkn, List.getElem?_drop]
    congr 1
    ring

/-- Witness for C8: `rows(1..3)` on the 5-row, 2-column row-major matrix
with flat buffer `[1,...,10]` is the 2-row view `[3,4,5,6]`, and its
`row(0)` equals the original matrix's `row(1)`. -/
theorem range_view_spec_witness :
    to_range (RangeBound.included 1) (RangeBound.excluded 3) 5 = (1, 3) ∧
    Mat.rows { values := [(1 : Int), 2, 3, 4, 5, 6, 7, 8, 9, 10], nrow := 5,
               ncol := 2, layout := MatLayouts.RowMajor }
        (RangeBound.included 1) (RangeBound.excluded 3) =
      some { values := [(3 : Int), 4, 5, 6], nrow := 2, ncol := 2,
             layout := MatLayouts.RowMajor } ∧
    Mat.row { values := [(3 : Int), 4, 5, 6], nrow := 2, ncol := 2,
              layout := MatLayouts.RowMajor } 0 =
      Mat.row { values := [(1 : Int), 2, 3, 4, 5, 6, 7, 8, 9, 10], nrow := 5,
                ncol := 2, layout := MatLayouts.RowMajor } 1 := by
  have h := range_view_spec Int
    { values := [(1 : Int), 2, 3, 4, 5, 6, 7, 8, 9, 10], nrow := 5, ncol := 2,
      layout := MatLayouts.RowMajor }
    (RangeBound.included 1) (RangeBound.excluded 3) (by decide)
  obtain ⟨v, hv, hn, hc, hl, hrow⟩ :=
    h.2.2.2.2.1 1 3 rfl (by decide) (by decide)
  have hcomp : Mat.rows
      { values := [(1 : Int), 2, 3, 4, 5, 6, 7, 8, 9, 10], nrow := 5,
        ncol := 2, layout := MatLayouts.RowMajor }
      (RangeBound.included 1) (RangeBound.excluded 3) =
      some { values := [(3 : Int), 4, 5, 6], nrow := 2, ncol := 2,
             layout := MatLayouts.RowMajor } := by decide
  have hveq : v = { values := [(3 : Int), 4, 5, 6], nrow := 2, ncol := 2,
                    layout := MatLayouts.RowMajor } :=
    Option.some.inj (hv.symm.trans hcomp)
  have hr0 := hrow 0 (by decide)
  rw [hveq] at hr0
  exact ⟨h.1 1 3 5, hcomp, by simpa using hr0⟩

end Lgbm
